import Mathlib

/-!
# Double pendulum: the per-frame physics update

A shallow embedding of the numerical core of `Double Pendulum.cpp`:
the angular-acceleration formula, the single-correction angle wrap, the
sub-stepped explicit-Euler update of one pendulum, the derivation of the two
mass positions, and the gated frame loop that drives them.

`double` values are read as elements of a linearly ordered field `α`
(instantiated with `ℝ` in the theorems, and runnable at `ℚ`).  The C math
library's `sin`, `cos` and `M_PI` are not part of the repository; they enter
every definition as the parameters `sin`, `cos` and `pi`, and the theorems
instantiate them with `Real.sin`, `Real.cos` and `Real.pi`.
Rendering, colours and SDL plumbing are outside the model.
-/

namespace DoublePendulum

variable {α : Type} [LinearOrderedField α]

/-! ## Constants (source lines 12-20) -/

/-- Window width in pixels. -/
def screenWidth : Nat := 1000

/-- Window height in pixels. -/
def screenHeight : Nat := 1000

/-- Simulation speed factor. -/
def timescale : α := 1

/-- Number of integration sub-steps per frame. -/
def timeSteps : Nat := 100

/-- Scale of one metre in pixels. -/
def scale : α := (screenWidth : α) / 4.5

/-! ## Data model (source lines 28-57) -/

/-- A point mass marker; the colour field is presentation only and left out. -/
structure circle (α : Type) [LinearOrderedField α] where
  x : α := 0
  y : α := 0
  radius : α := 0.04

/-- One double pendulum; the field defaults are those of the source. -/
structure doublePendulum (α : Type) [LinearOrderedField α] where
  x : α := (screenWidth : α) / (2 * scale)
  y : α := (screenHeight : α) / (2 * scale)
  topCircle : circle α := {}
  bottomCircle : circle α := {}
  angle1 : α := 0
  angle2 : α := 0
  angularVel1 : α := 0
  angularVel2 : α := 0
  angularAccel1 : α := 0
  angularAccel2 : α := 0
  point1Mass : α := 2
  point2Mass : α := 2
  rod1Length : α := 1
  rod2Length : α := 1
  rod1Thickness : α := 5
  rod2Thickness : α := 5

/-! ## Angular accelerations (source lines 82-99) -/

/-- The divisor shared by both quotients of `doublePendulumAngularAccelerations`
(source lines 88 and 95-96). -/
def accelDenominator (cos : α → α) (angle1 angle2 point1Mass point2Mass rod2Length : α) : α :=
  rod2Length * (2 * point1Mass + point2Mass - point2Mass * cos (2 * angle1 - 2 * angle2))

/-- The pair of angular accelerations, upper rod first, written as in the source. -/
def doublePendulumAngularAccelerations (sin cos : α → α)
    (angle1 angle2 angularVel1 angularVel2 point1Mass point2Mass rod1Length rod2Length : α) :
    α × α :=
  let g : α := 9.81
  let angularAccelerationUpper : α :=
    (-g * (2 * point1Mass + point2Mass) * sin angle1
        - point2Mass * g * sin (angle1 - 2 * angle2)
        - 2 * sin (angle1 - angle2) * point2Mass
          * (angularVel2 * angularVel2
              + angularVel1 * angularVel1 * rod1Length * cos (angle1 - angle2)))
      / (rod2Length * (2 * point1Mass + point2Mass
          - point2Mass * cos (2 * angle1 - 2 * angle2)))
  let angularAccelerationLower : α :=
    (2 * sin (angle1 - angle2)
        * (angularVel1 * angularVel1 * rod1Length * (point1Mass + point2Mass)
            + g * (point1Mass + point2Mass) * cos angle1
            + angularVel2 * angularVel2 * rod2Length * point2Mass * cos (angle1 - angle2)))
      / (rod2Length * (2 * point1Mass + point2Mass
          - point2Mass * cos (2 * angle1 - 2 * angle2)))
  (angularAccelerationUpper, angularAccelerationLower)

/-! ## Angle wrap (source lines 101-108) -/

/-- One conditional correction by a full turn; the source mutates its argument
in place, here the new value is returned. -/
def wrapAngle (pi : α) (angle : α) : α :=
  if angle > pi then angle - 2 * pi
  else if angle < -pi then angle + 2 * pi
  else angle

/-! ## Per-frame update of one pendulum (source lines 195-216) -/

/-- Body of the inner loop, source lines 197-207: the accelerations are read
from the current state and stored, the velocities are advanced, and the angles
are advanced with the velocities just written. -/
def subStep (sin cos : α → α) (deltaTime : α) (p : doublePendulum α) : doublePendulum α :=
  let angularAccelerations : α × α :=
    doublePendulumAngularAccelerations sin cos p.angle1 p.angle2 p.angularVel1 p.angularVel2
      p.point1Mass p.point2Mass p.rod1Length p.rod2Length
  let p := { p with angularAccel1 := angularAccelerations.1 }
  let p := { p with angularAccel2 := angularAccelerations.2 }
  let p := { p with
    angularVel1 := p.angularVel1 + (p.angularAccel1 * deltaTime * timescale) / (timeSteps : α) }
  let p := { p with
    angularVel2 := p.angularVel2 + (p.angularAccel2 * deltaTime * timescale) / (timeSteps : α) }
  let p := { p with
    angle1 := p.angle1 + (p.angularVel1 * deltaTime * timescale) / (timeSteps : α) }
  let p := { p with
    angle2 := p.angle2 + (p.angularVel2 * deltaTime * timescale) / (timeSteps : α) }
  p

/-- The inner loop `for (j = 0; j < timeSteps; j++)` run for `j` iterations. -/
def subStepLoop (sin cos : α → α) (deltaTime : α) : Nat → doublePendulum α → doublePendulum α
  | 0, p => p
  | j + 1, p => subStepLoop sin cos deltaTime j (subStep sin cos deltaTime p)

/-- Source lines 209-210: both angles are wrapped. -/
def wrapAngles (pi : α) (p : doublePendulum α) : doublePendulum α :=
  let p := { p with angle1 := wrapAngle pi p.angle1 }
  let p := { p with angle2 := wrapAngle pi p.angle2 }
  p

/-- Source lines 212-216: the positions of the two masses, relative to the pivot. -/
def derivePositions (sin cos : α → α) (p : doublePendulum α) : doublePendulum α :=
  let p := { p with topCircle := { p.topCircle with x := p.rod1Length * sin p.angle1 } }
  let p := { p with topCircle := { p.topCircle with y := -p.rod1Length * cos p.angle1 } }
  let p := { p with
    bottomCircle := { p.bottomCircle with x := p.topCircle.x + p.rod2Length * sin p.angle2 } }
  let p := { p with
    bottomCircle := { p.bottomCircle with y := p.topCircle.y - p.rod2Length * cos p.angle2 } }
  p

/-- The body of the outer loop for one pendulum, source lines 195-216. -/
def updatePendulum (sin cos : α → α) (pi : α) (deltaTime : α) (p : doublePendulum α) :
    doublePendulum α :=
  derivePositions sin cos (wrapAngles pi (subStepLoop sin cos deltaTime timeSteps p))

/-- Successive per-frame updates of one pendulum, one per frame delta. -/
def updateFrames (sin cos : α → α) (pi : α) (deltas : List α) (p : doublePendulum α) :
    doublePendulum α :=
  deltas.foldl (fun q deltaTime => updatePendulum sin cos pi deltaTime q) p

/-! ## Population and frame loop (source lines 144-268) -/

/-- Number of pendulums created at start-up. -/
def totalPendulums : Nat := 100

/-- The pendulum created at index `i`, source lines 155-163: default fields,
both angles set to `M_PI/1.5 + i * 0.00000000001`. -/
def newPendulum (pi : α) (i : Nat) : doublePendulum α :=
  { angle1 := pi / 1.5 + (i : α) * 0.00000000001
    angle2 := pi / 1.5 + (i : α) * 0.00000000001 }

/-- The population in creation order, before the shuffle. -/
def createPendulums (pi : α) : List (doublePendulum α) :=
  (List.range totalPendulums).map (newPendulum pi)

/-- The variables of `WinMain` that the physics depends on. -/
structure LoopState (α : Type) [LinearOrderedField α] where
  pendulums : List (doublePendulum α)
  deltaTime : α
  timer : α

/-- State on entry to the frame loop, for a given outcome of the shuffle:
`deltaTime = 0` and `timer = 0`. -/
def initialState (shuffled : List (doublePendulum α)) : LoopState α :=
  { pendulums := shuffled, deltaTime := 0, timer := 0 }

/-- One iteration of the frame loop, source lines 179-268.  The physics update
runs only when `timer > 2` and uses the delta measured in the previous
iteration; `elapsed` is the frame time measured at the end of this one. -/
def frame (sin cos : α → α) (pi : α) (s : LoopState α) (elapsed : α) : LoopState α :=
  let pendulums :=
    if s.timer > 2 then s.pendulums.map (updatePendulum sin cos pi s.deltaTime)
    else s.pendulums
  let deltaTime := elapsed
  { pendulums := pendulums, deltaTime := deltaTime, timer := s.timer + deltaTime }

/-- The frame loop run over a sequence of measured frame times. -/
def runFrames (sin cos : α → α) (pi : α) (s : LoopState α) (elapsed : List α) : LoopState α :=
  elapsed.foldl (frame sin cos pi) s

/-- The positions of the two masses agree with the current angles and lengths. -/
def positionsDerived (sin cos : α → α) (p : doublePendulum α) : Prop :=
  p.topCircle.x = p.rod1Length * sin p.angle1 ∧
  p.topCircle.y = -p.rod1Length * cos p.angle1 ∧
  p.bottomCircle.x = p.topCircle.x + p.rod2Length * sin p.angle2 ∧
  p.bottomCircle.y = p.topCircle.y + -(p.rod2Length * cos p.angle2)

/-- Both angles and both angular velocities are zero. -/
def atRest (p : doublePendulum α) : Prop :=
  p.angle1 = 0 ∧ p.angle2 = 0 ∧ p.angularVel1 = 0 ∧ p.angularVel2 = 0

/-- Both derived positions still hold the default `(0, 0)` of a fresh `circle`. -/
def positionsDefault (p : doublePendulum α) : Prop :=
  p.topCircle.x = 0 ∧ p.topCircle.y = 0 ∧ p.bottomCircle.x = 0 ∧ p.bottomCircle.y = 0

/-- The closed form as the specification writes it: `velocity2^2` carries the
factor `length2` in the upper acceleration. -/
def computeAngularAccelerations (sin cos : α → α)
    (angle1 angle2 velocity1 velocity2 mass1 mass2 length1 length2 : α) : α × α :=
  let g : α := 9.81
  let denom : α := length2 * (2 * mass1 + mass2 - mass2 * cos (2 * angle1 - 2 * angle2))
  let accel1 : α :=
    (-g * (2 * mass1 + mass2) * sin angle1
        - mass2 * g * sin (angle1 - 2 * angle2)
        - 2 * sin (angle1 - angle2) * mass2
          * (velocity2 ^ 2 * length2 + velocity1 ^ 2 * length1 * cos (angle1 - angle2)))
      / denom
  let accel2 : α :=
    (2 * sin (angle1 - angle2)
        * (velocity1 ^ 2 * length1 * (mass1 + mass2)
            + g * (mass1 + mass2) * cos angle1
            + velocity2 ^ 2 * length2 * mass2 * cos (angle1 - angle2)))
      / denom
  (accel1, accel2)

/-- The specification's `stepSubstep`: one explicit-Euler update with sub-step
size `dt`, the accelerations being the output of the specification's
`computeAngularAccelerations` for the pre-step state. -/
def stepSubstep (sin cos : α → α) (dt : α) (state : doublePendulum α) : doublePendulum α :=
  let accel : α × α :=
    computeAngularAccelerations sin cos state.angle1 state.angle2
      state.angularVel1 state.angularVel2
      state.point1Mass state.point2Mass state.rod1Length state.rod2Length
  let velocity1 : α := state.angularVel1 + accel.1 * dt
  let velocity2 : α := state.angularVel2 + accel.2 * dt
  { state with
    angularAccel1 := accel.1
    angularAccel2 := accel.2
    angularVel1 := velocity1
    angularVel2 := velocity2
    angle1 := state.angle1 + velocity1 * dt
    angle2 := state.angle2 + velocity2 * dt }

/-- The specification's `normalizeAngle` applied to both angles. -/
def normalizeAngles (pi : α) (state : doublePendulum α) : doublePendulum α :=
  { state with angle1 := wrapAngle pi state.angle1, angle2 := wrapAngle pi state.angle2 }

/-- The specification's `advance` for one instance, steps 1 and 2:
`subStepCount` applications of `stepSubstep` with
`dt = frameDeltaSeconds * timescale / subStepCount`, then both angles normalised. -/
def advanceAngles (sin cos : α → α) (pi : α) (frameDeltaSeconds : α) (subStepCount : Nat)
    (state : doublePendulum α) : doublePendulum α :=
  normalizeAngles pi
    ((stepSubstep sin cos (frameDeltaSeconds * timescale / (subStepCount : α)))^[subStepCount]
      state)

/-! ## Acceleration formula -/

/-- Both quotients of `doublePendulumAngularAccelerations` divide by `accelDenominator`. -/
theorem accelerations_over_denominator (sin cos : α → α) (a1 a2 v1 v2 m1 m2 l1 l2 : α) :
    doublePendulumAngularAccelerations sin cos a1 a2 v1 v2 m1 m2 l1 l2 =
      ((-9.81 * (2 * m1 + m2) * sin a1 - m2 * 9.81 * sin (a1 - 2 * a2)
          - 2 * sin (a1 - a2) * m2 * (v2 * v2 + v1 * v1 * l1 * cos (a1 - a2)))
          / accelDenominator cos a1 a2 m1 m2 l2,
       (2 * sin (a1 - a2) * (v1 * v1 * l1 * (m1 + m2) + 9.81 * (m1 + m2) * cos a1
          + v2 * v2 * l2 * m2 * cos (a1 - a2)))
          / accelDenominator cos a1 a2 m1 m2 l2) := by
  simp only [doublePendulumAngularAccelerations, accelDenominator]

/-- The lower-rod acceleration of the source is the closed form's, for all inputs. -/
theorem lower_acceleration_eq_closed_form (sin cos : α → α) (a1 a2 v1 v2 m1 m2 l1 l2 : α) :
    (doublePendulumAngularAccelerations sin cos a1 a2 v1 v2 m1 m2 l1 l2).2 =
      (computeAngularAccelerations sin cos a1 a2 v1 v2 m1 m2 l1 l2).2 := by
  simp only [doublePendulumAngularAccelerations, computeAngularAccelerations, pow_two]

/-- With the lower rod of length one, as in every pendulum the program creates,
the source agrees with the closed form in both components. -/
theorem accelerations_eq_closed_form_of_unit_rod2 (sin cos : α → α)
    (a1 a2 v1 v2 m1 m2 l1 : α) :
    doublePendulumAngularAccelerations sin cos a1 a2 v1 v2 m1 m2 l1 1 =
      computeAngularAccelerations sin cos a1 a2 v1 v2 m1 m2 l1 1 := by
  simp only [doublePendulumAngularAccelerations, computeAngularAccelerations, pow_two, mul_one]

/-- The divisor is at least `2 * m1 * l2` when the cosine is at most one and
`m2`, `l2` are nonnegative. -/
theorem accelDenominator_lower_bound (a1 a2 m1 m2 l2 : ℝ) (hm2 : 0 ≤ m2) (hl2 : 0 ≤ l2) :
    2 * m1 * l2 ≤ accelDenominator Real.cos a1 a2 m1 m2 l2 := by
  have hc : Real.cos (2 * a1 - 2 * a2) ≤ 1 := Real.cos_le_one _
  have h1 : m2 * Real.cos (2 * a1 - 2 * a2) ≤ m2 := by nlinarith
  have h2 : 2 * m1 ≤ 2 * m1 + m2 - m2 * Real.cos (2 * a1 - 2 * a2) := by linarith
  have h3 := mul_le_mul_of_nonneg_left h2 hl2
  unfold accelDenominator
  linarith

/-- C1: at `angle1 = π/2`, `angle2 = 0`, `angularVel1 = 0`, `angularVel2 = 1`, unit masses,
`rod1Length = 1` and `rod2Length = 2` the source returns the upper acceleration `-5.155`,
whereas the closed form of the specification gives `-5.405`: the source's
`angularVel2 * angularVel2` term carries no factor `rod2Length`. -/
theorem upper_acceleration_misses_rod2Length :
    (doublePendulumAngularAccelerations Real.sin Real.cos (Real.pi / 2) 0 0 1 1 1 1 2).1
        = -5.155 ∧
      (computeAngularAccelerations Real.sin Real.cos (Real.pi / 2) 0 0 1 1 1 1 2).1
        = -5.405 ∧
      doublePendulumAngularAccelerations Real.sin Real.cos (Real.pi / 2) 0 0 1 1 1 1 2 ≠
        computeAngularAccelerations Real.sin Real.cos (Real.pi / 2) 0 0 1 1 1 1 2 := by
  have e1 : 2 * (Real.pi / 2) - 2 * 0 = Real.pi := by ring
  have e2 : Real.pi / 2 - 2 * 0 = Real.pi / 2 := by ring
  have hc : (doublePendulumAngularAccelerations Real.sin Real.cos
      (Real.pi / 2) 0 0 1 1 1 1 2).1 = -5.155 := by
    simp only [doublePendulumAngularAccelerations, e1, e2, sub_zero, Real.sin_pi_div_two,
      Real.cos_pi_div_two, Real.cos_pi]
    norm_num
  have hs : (computeAngularAccelerations Real.sin Real.cos
      (Real.pi / 2) 0 0 1 1 1 1 2).1 = -5.405 := by
    simp only [computeAngularAccelerations, e1, e2, sub_zero, Real.sin_pi_div_two,
      Real.cos_pi_div_two, Real.cos_pi]
    norm_num
  refine ⟨hc, hs, fun h => ?_⟩
  rw [h, hs] at hc
  norm_num at hc

/-- C7 (as amended): for positive masses and a positive lower rod length the divisor of
`doublePendulumAngularAccelerations` is at least `2 * point1Mass * rod2Length`, hence
strictly positive, at every pair of angles: no angle configuration makes it zero. -/
theorem accelDenominator_pos (m1 m2 l2 : ℝ) (hm1 : 0 < m1) (hm2 : 0 < m2) (hl2 : 0 < l2)
    (a1 a2 : ℝ) :
    2 * m1 * l2 ≤ accelDenominator Real.cos a1 a2 m1 m2 l2 ∧
      0 < accelDenominator Real.cos a1 a2 m1 m2 l2 := by
  have h := accelDenominator_lower_bound a1 a2 m1 m2 l2 hm2.le hl2.le
  have hpos : 0 < 2 * m1 * l2 := by positivity
  exact ⟨h, lt_of_lt_of_le hpos h⟩

/-- Instance of `accelDenominator_pos` at the program's own masses and length. -/
theorem accelDenominator_pos_witness :
    (0 : ℝ) < 2 ∧ (0 : ℝ) < 1 ∧
      (2 * 2 * 1 ≤ accelDenominator Real.cos (Real.pi / 1.5) (Real.pi / 1.5) 2 2 1 ∧
        0 < accelDenominator Real.cos (Real.pi / 1.5) (Real.pi / 1.5) 2 2 1) :=
  ⟨by norm_num, by norm_num,
    accelDenominator_pos 2 2 1 (by norm_num) (by norm_num) (by norm_num) _ _⟩

/-- C7 (as stated) fails: with the program's masses `2`, `2` and rod length `1`, which
satisfy the data-model invariant, no pair of angles makes the divisor zero. -/
theorem no_singular_angles_for_program_masses :
    ¬ ∃ a1 a2 : ℝ, accelDenominator Real.cos a1 a2 2 2 1 = 0 := by
  rintro ⟨a1, a2, h⟩
  have hb := accelDenominator_lower_bound a1 a2 2 2 1 (by norm_num) (by norm_num)
  rw [h] at hb
  norm_num at hb

/-- C9: with both angles equal to `θ` and both angular velocities zero, for `point1Mass > 0`
and `rod2Length ≠ 0`, the source returns exactly `(-9.81 * sin θ / rod2Length, 0)`,
whatever the masses and `rod1Length`. -/
theorem accelerations_at_equal_angles_at_rest (m1 m2 l1 l2 θ : ℝ) (hm1 : 0 < m1)
    (hl2 : l2 ≠ 0) :
    doublePendulumAngularAccelerations Real.sin Real.cos θ θ 0 0 m1 m2 l1 l2 =
      (-9.81 * Real.sin θ / l2, 0) := by
  have e1 : θ - 2 * θ = -θ := by ring
  have e2 : 2 * θ - 2 * θ = 0 := by ring
  have hm : m1 ≠ 0 := hm1.ne.symm
  simp only [doublePendulumAngularAccelerations, e1, e2, sub_self, Real.sin_neg, Real.sin_zero,
    Real.cos_zero, mul_zero, zero_mul, sub_zero, zero_div, mul_one, Prod.mk.injEq, and_true]
  field_simp
  ring

/-- Instance of `accelerations_at_equal_angles_at_rest` at the initial state of pendulum 0. -/
theorem accelerations_at_equal_angles_at_rest_witness :
    (0 : ℝ) < 2 ∧ (1 : ℝ) ≠ 0 ∧
      doublePendulumAngularAccelerations Real.sin Real.cos
          (Real.pi / 1.5) (Real.pi / 1.5) 0 0 2 2 1 1 =
        (-9.81 * Real.sin (Real.pi / 1.5) / 1, 0) :=
  ⟨by norm_num, by norm_num,
    accelerations_at_equal_angles_at_rest 2 2 1 1 (Real.pi / 1.5) (by norm_num) (by norm_num)⟩

/-! ## Angle wrap -/

/-- The wrap leaves an angle unchanged exactly when it lies in `[-π, π]`. -/
theorem wrapAngle_eq_self_iff (y : ℝ) :
    wrapAngle Real.pi y = y ↔ -Real.pi ≤ y ∧ y ≤ Real.pi := by
  have hpi := Real.pi_pos
  unfold wrapAngle
  split_ifs with h1 h2
  · constructor
    · intro h; linarith
    · rintro ⟨_, h⟩; linarith
  · constructor
    · intro h; linarith
    · rintro ⟨h, _⟩; linarith
  · constructor
    · intro _; exact ⟨not_lt.mp h2, not_lt.mp h1⟩
    · intro _; rfl

/-- The wrapped angle lies in `[-π, π]` exactly when the input lies in `[-3π, 3π]`. -/
theorem wrapAngle_mem_closed_iff (x : ℝ) :
    (-Real.pi ≤ wrapAngle Real.pi x ∧ wrapAngle Real.pi x ≤ Real.pi) ↔
      (-(3 * Real.pi) ≤ x ∧ x ≤ 3 * Real.pi) := by
  have hpi := Real.pi_pos
  unfold wrapAngle
  split_ifs with h1 h2
  · constructor
    · rintro ⟨_, h⟩; constructor <;> linarith
    · rintro ⟨_, h⟩; constructor <;> linarith
  · constructor
    · rintro ⟨h, _⟩; constructor <;> linarith
    · rintro ⟨h, _⟩; constructor <;> linarith
  · have h3 := not_lt.mp h2
    have h4 := not_lt.mp h1
    constructor
    · intro _; constructor <;> linarith
    · intro _; exact ⟨h3, h4⟩

/-- The wrap fixes zero. -/
theorem wrapAngle_zero : wrapAngle Real.pi 0 = 0 :=
  (wrapAngle_eq_self_iff 0).mpr ⟨by linarith [Real.pi_pos], Real.pi_pos.le⟩

/-- C2 (as amended): the wrapped angle lies in `(-π, π]` exactly when the input `x`
satisfies `-3π < x ≤ 3π` and `x ≠ -π`; outside that set the single correction does not
reach the interval. -/
theorem wrapAngle_mem_Ioc_iff (x : ℝ) :
    (-Real.pi < wrapAngle Real.pi x ∧ wrapAngle Real.pi x ≤ Real.pi) ↔
      (-(3 * Real.pi) < x ∧ x ≤ 3 * Real.pi ∧ x ≠ -Real.pi) := by
  have hpi := Real.pi_pos
  unfold wrapAngle
  split_ifs with h1 h2
  · constructor
    · rintro ⟨_, h⟩
      exact ⟨by linarith, by linarith, fun he => by rw [he] at h1; linarith⟩
    · rintro ⟨_, h, _⟩; constructor <;> linarith
  · constructor
    · rintro ⟨h, _⟩
      exact ⟨by linarith, by linarith, fun he => by rw [he] at h2; exact lt_irrefl _ h2⟩
    · rintro ⟨h, _, _⟩; constructor <;> linarith
  · have h3 := not_lt.mp h2
    have h4 := not_lt.mp h1
    constructor
    · rintro ⟨h, _⟩
      exact ⟨by linarith, by linarith, fun he => by rw [he] at h; exact lt_irrefl _ h⟩
    · rintro ⟨_, _, hne⟩
      exact ⟨lt_of_le_of_ne h3 (Ne.symm hne), h4⟩

/-- C2 (as stated) fails: the input `-π` is left at `-π`, which is not above `-π`, and
the input `4π` is wrapped to `2π`, which is above `π`. -/
theorem wrapAngle_leaves_Ioc :
    ¬ (-Real.pi < wrapAngle Real.pi (-Real.pi)) ∧
      ¬ (wrapAngle Real.pi (4 * Real.pi) ≤ Real.pi) := by
  have hpi := Real.pi_pos
  have e1 : wrapAngle Real.pi (-Real.pi) = -Real.pi :=
    (wrapAngle_eq_self_iff _).mpr ⟨le_refl _, by linarith⟩
  have e2 : wrapAngle Real.pi (4 * Real.pi) = 2 * Real.pi := by
    unfold wrapAngle
    rw [if_pos (by linarith)]
    ring
  rw [e1, e2]
  exact ⟨lt_irrefl _, by linarith⟩

/-- C3 (as amended): wrapping twice equals wrapping once exactly for inputs `x` with
`-3π ≤ x ≤ 3π`, i.e. angles at most one revolution out of range. -/
theorem wrapAngle_idempotent_iff (x : ℝ) :
    wrapAngle Real.pi (wrapAngle Real.pi x) = wrapAngle Real.pi x ↔
      (-(3 * Real.pi) ≤ x ∧ x ≤ 3 * Real.pi) :=
  (wrapAngle_eq_self_iff _).trans (wrapAngle_mem_closed_iff x)

/-- C3 (as stated) fails: `5π` wraps to `3π`, and `3π` wraps to `π`. -/
theorem wrapAngle_not_idempotent :
    wrapAngle Real.pi (5 * Real.pi) = 3 * Real.pi ∧
      wrapAngle Real.pi (wrapAngle Real.pi (5 * Real.pi)) = Real.pi ∧
      wrapAngle Real.pi (wrapAngle Real.pi (5 * Real.pi)) ≠ wrapAngle Real.pi (5 * Real.pi) := by
  have hpi := Real.pi_pos
  have e1 : wrapAngle Real.pi (5 * Real.pi) = 3 * Real.pi := by
    unfold wrapAngle
    rw [if_pos (by linarith)]
    ring
  have e2 : wrapAngle Real.pi (3 * Real.pi) = Real.pi := by
    unfold wrapAngle
    rw [if_pos (by linarith)]
    ring
  rw [e1, e2]
  exact ⟨rfl, rfl, by linarith⟩

/-- C10: for `-3π ≤ x ≤ 3π` the wrapped angle `r` satisfies `-π ≤ r ≤ π` and differs from
`x` by `-2π`, `0` or `2π`; the lower bound `-π` is attained at `x = -π` and at `x = -3π`. -/
theorem wrapAngle_within_one_turn (x : ℝ) (hlo : -(3 * Real.pi) ≤ x) (hhi : x ≤ 3 * Real.pi) :
    (-Real.pi ≤ wrapAngle Real.pi x ∧ wrapAngle Real.pi x ≤ Real.pi) ∧
      (wrapAngle Real.pi x - x = -(2 * Real.pi) ∨ wrapAngle Real.pi x - x = 0 ∨
        wrapAngle Real.pi x - x = 2 * Real.pi) ∧
      wrapAngle Real.pi (-Real.pi) = -Real.pi ∧
      wrapAngle Real.pi (-(3 * Real.pi)) = -Real.pi := by
  have hpi := Real.pi_pos
  refine ⟨(wrapAngle_mem_closed_iff x).mpr ⟨hlo, hhi⟩, ?_, ?_, ?_⟩
  · unfold wrapAngle
    split_ifs with h1 h2
    · left; ring
    · right; right; ring
    · right; left; ring
  · exact (wrapAngle_eq_self_iff _).mpr ⟨le_refl _, by linarith⟩
  · unfold wrapAngle
    rw [if_neg (by linarith), if_pos (by linarith)]
    ring

/-- Instance of `wrapAngle_within_one_turn` at `x = 2π`, which wraps to `0`. -/
theorem wrapAngle_within_one_turn_witness :
    (-(3 * Real.pi) ≤ 2 * Real.pi ∧ 2 * Real.pi ≤ 3 * Real.pi) ∧
      (-Real.pi ≤ wrapAngle Real.pi (2 * Real.pi) ∧
        wrapAngle Real.pi (2 * Real.pi) ≤ Real.pi) ∧
      (wrapAngle Real.pi (2 * Real.pi) - 2 * Real.pi = -(2 * Real.pi) ∨
        wrapAngle Real.pi (2 * Real.pi) - 2 * Real.pi = 0 ∨
        wrapAngle Real.pi (2 * Real.pi) - 2 * Real.pi = 2 * Real.pi) ∧
      wrapAngle Real.pi (-Real.pi) = -Real.pi ∧
      wrapAngle Real.pi (-(3 * Real.pi)) = -Real.pi :=
  ⟨⟨by linarith [Real.pi_pos], by linarith [Real.pi_pos]⟩,
    wrapAngle_within_one_turn (2 * Real.pi) (by linarith [Real.pi_pos])
      (by linarith [Real.pi_pos])⟩

/-! ## Per-frame update -/

/-- The inner loop is the iteration of its body. -/
theorem subStepLoop_eq_iterate (sin cos : α → α) (deltaTime : α) (j : Nat)
    (p : doublePendulum α) :
    subStepLoop sin cos deltaTime j p = (subStep sin cos deltaTime)^[j] p := by
  induction j generalizing p with
  | zero => rfl
  | succ j ih => rw [subStepLoop, ih, Function.iterate_succ_apply]

/-- The source's wrap of both angles is the specification's normalisation. -/
theorem wrapAngles_eq_normalizeAngles (pi : α) (q : doublePendulum α) :
    wrapAngles pi q = normalizeAngles pi q := rfl

/-- The constants of a pendulum are untouched by the loop body. -/
theorem subStep_constants (sin cos : α → α) (deltaTime : α) (p : doublePendulum α) :
    (subStep sin cos deltaTime p).point1Mass = p.point1Mass ∧
      (subStep sin cos deltaTime p).point2Mass = p.point2Mass ∧
      (subStep sin cos deltaTime p).rod1Length = p.rod1Length ∧
      (subStep sin cos deltaTime p).rod2Length = p.rod2Length ∧
      (subStep sin cos deltaTime p).topCircle = p.topCircle ∧
      (subStep sin cos deltaTime p).bottomCircle = p.bottomCircle :=
  ⟨rfl, rfl, rfl, rfl, rfl, rfl⟩

/-- The constants of a pendulum are untouched by the inner loop. -/
theorem subStepLoop_constants (sin cos : α → α) (deltaTime : α) (j : Nat)
    (p : doublePendulum α) :
    (subStepLoop sin cos deltaTime j p).point1Mass = p.point1Mass ∧
      (subStepLoop sin cos deltaTime j p).point2Mass = p.point2Mass ∧
      (subStepLoop sin cos deltaTime j p).rod1Length = p.rod1Length ∧
      (subStepLoop sin cos deltaTime j p).rod2Length = p.rod2Length := by
  induction j generalizing p with
  | zero => exact ⟨rfl, rfl, rfl, rfl⟩
  | succ j ih =>
    obtain ⟨h1, h2, h3, h4⟩ := ih (subStep sin cos deltaTime p)
    exact ⟨h1, h2, h3, h4⟩

/-- The constants of a pendulum are untouched by a per-frame update. -/
theorem updatePendulum_constants (sin cos : α → α) (pi deltaTime : α) (p : doublePendulum α) :
    (updatePendulum sin cos pi deltaTime p).point1Mass = p.point1Mass ∧
      (updatePendulum sin cos pi deltaTime p).point2Mass = p.point2Mass ∧
      (updatePendulum sin cos pi deltaTime p).rod1Length = p.rod1Length ∧
      (updatePendulum sin cos pi deltaTime p).rod2Length = p.rod2Length := by
  have h := subStepLoop_constants sin cos deltaTime timeSteps p
  unfold updatePendulum
  generalize subStepLoop sin cos deltaTime timeSteps p = q at h ⊢
  exact h

/-- At rest at the bottom, the source's accelerations are both zero. -/
theorem accelerations_at_rest (m1 m2 l1 l2 : ℝ) :
    doublePendulumAngularAccelerations Real.sin Real.cos 0 0 0 0 m1 m2 l1 l2 = (0, 0) := by
  simp [doublePendulumAngularAccelerations]

/-- One sub-step keeps a pendulum at rest. -/
theorem atRest_subStep (deltaTime : ℝ) (p : doublePendulum ℝ) (h : atRest p) :
    atRest (subStep Real.sin Real.cos deltaTime p) := by
  obtain ⟨h1, h2, h3, h4⟩ := h
  simp only [atRest, subStep, h1, h2, h3, h4, accelerations_at_rest]
  simp

/-- The inner loop keeps a pendulum at rest. -/
theorem atRest_subStepLoop (deltaTime : ℝ) (j : Nat) (p : doublePendulum ℝ) (h : atRest p) :
    atRest (subStepLoop Real.sin Real.cos deltaTime j p) := by
  induction j generalizing p with
  | zero => exact h
  | succ j ih => exact ih _ (atRest_subStep deltaTime p h)

/-- A per-frame update keeps a pendulum at rest. -/
theorem atRest_updatePendulum (deltaTime : ℝ) (p : doublePendulum ℝ) (h : atRest p) :
    atRest (updatePendulum Real.sin Real.cos Real.pi deltaTime p) := by
  have hq := atRest_subStepLoop deltaTime timeSteps p h
  unfold updatePendulum
  generalize subStepLoop Real.sin Real.cos deltaTime timeSteps p = q at hq ⊢
  obtain ⟨h1, h2, h3, h4⟩ := hq
  refine ⟨?_, ?_, h3, h4⟩
  · show wrapAngle Real.pi q.angle1 = 0
    rw [h1, wrapAngle_zero]
  · show wrapAngle Real.pi q.angle2 = 0
    rw [h2, wrapAngle_zero]

/-- Any number of per-frame updates keeps a pendulum at rest. -/
theorem atRest_updateFrames (deltas : List ℝ) (p : doublePendulum ℝ) (h : atRest p) :
    atRest (updateFrames Real.sin Real.cos Real.pi deltas p) := by
  induction deltas generalizing p with
  | nil => exact h
  | cons d ds ih =>
    have h2 := ih (updatePendulum Real.sin Real.cos Real.pi d p) (atRest_updatePendulum d p h)
    simpa only [updateFrames, List.foldl_cons] using h2

/-- Any number of per-frame updates leaves the constants of a pendulum untouched. -/
theorem updateFrames_constants (sin cos : α → α) (pi : α) (deltas : List α)
    (p : doublePendulum α) :
    (updateFrames sin cos pi deltas p).point1Mass = p.point1Mass ∧
      (updateFrames sin cos pi deltas p).point2Mass = p.point2Mass ∧
      (updateFrames sin cos pi deltas p).rod1Length = p.rod1Length ∧
      (updateFrames sin cos pi deltas p).rod2Length = p.rod2Length := by
  induction deltas generalizing p with
  | nil => exact ⟨rfl, rfl, rfl, rfl⟩
  | cons d ds ih =>
    obtain ⟨h1, h2, h3, h4⟩ := ih (updatePendulum sin cos pi d p)
    obtain ⟨k1, k2, k3, k4⟩ := updatePendulum_constants sin cos pi d p
    simp only [updateFrames, List.foldl_cons] at h1 h2 h3 h4 ⊢
    exact ⟨h1.trans k1, h2.trans k2, h3.trans k3, h4.trans k4⟩

/-- C4: a pendulum with positive masses and rod lengths that starts with both angles and
both angular velocities zero has both angles and both angular velocities zero after the
per-frame updates for any sequence of frame deltas; the divisor of the acceleration
formula is strictly positive in the state reached, so the quotients are defined there. -/
theorem equilibrium_is_stable (p : doublePendulum ℝ) (deltas : List ℝ)
    (hm1 : 0 < p.point1Mass) (hm2 : 0 < p.point2Mass)
    (_hl1 : 0 < p.rod1Length) (hl2 : 0 < p.rod2Length)
    (ha1 : p.angle1 = 0) (ha2 : p.angle2 = 0)
    (hv1 : p.angularVel1 = 0) (hv2 : p.angularVel2 = 0) :
    (updateFrames Real.sin Real.cos Real.pi deltas p).angle1 = 0 ∧
      (updateFrames Real.sin Real.cos Real.pi deltas p).angle2 = 0 ∧
      (updateFrames Real.sin Real.cos Real.pi deltas p).angularVel1 = 0 ∧
      (updateFrames Real.sin Real.cos Real.pi deltas p).angularVel2 = 0 ∧
      0 < accelDenominator Real.cos
        (updateFrames Real.sin Real.cos Real.pi deltas p).angle1
        (updateFrames Real.sin Real.cos Real.pi deltas p).angle2
        (updateFrames Real.sin Real.cos Real.pi deltas p).point1Mass
        (updateFrames Real.sin Real.cos Real.pi deltas p).point2Mass
        (updateFrames Real.sin Real.cos Real.pi deltas p).rod2Length := by
  obtain ⟨r1, r2, r3, r4⟩ := atRest_updateFrames deltas p ⟨ha1, ha2, hv1, hv2⟩
  obtain ⟨k1, k2, _, k4⟩ := updateFrames_constants Real.sin Real.cos Real.pi deltas p
  refine ⟨r1, r2, r3, r4, ?_⟩
  rw [k1, k2, k4]
  have hb := accelDenominator_lower_bound
    (updateFrames Real.sin Real.cos Real.pi deltas p).angle1
    (updateFrames Real.sin Real.cos Real.pi deltas p).angle2
    p.point1Mass p.point2Mass p.rod2Length hm2.le hl2.le
  have hpos : 0 < 2 * p.point1Mass * p.rod2Length := by positivity
  exact lt_of_lt_of_le hpos hb

/-- Instance of `equilibrium_is_stable`: the default pendulum (masses `2`, lengths `1`,
everything else zero) over three frames of `1/60`, `1/30` and `5` seconds. -/
theorem equilibrium_is_stable_witness :
    ((0 : ℝ) < ({} : doublePendulum ℝ).point1Mass ∧ (0 : ℝ) < ({} : doublePendulum ℝ).point2Mass ∧
      (0 : ℝ) < ({} : doublePendulum ℝ).rod1Length ∧
      (0 : ℝ) < ({} : doublePendulum ℝ).rod2Length) ∧
    (({} : doublePendulum ℝ).angle1 = 0 ∧ ({} : doublePendulum ℝ).angle2 = 0 ∧
      ({} : doublePendulum ℝ).angularVel1 = 0 ∧ ({} : doublePendulum ℝ).angularVel2 = 0) ∧
    (updateFrames Real.sin Real.cos Real.pi [1 / 60, 1 / 30, 5] {}).angle1 = 0 ∧
      (updateFrames Real.sin Real.cos Real.pi [1 / 60, 1 / 30, 5] {}).angle2 = 0 ∧
      (updateFrames Real.sin Real.cos Real.pi [1 / 60, 1 / 30, 5] {}).angularVel1 = 0 ∧
      (updateFrames Real.sin Real.cos Real.pi [1 / 60, 1 / 30, 5] {}).angularVel2 = 0 ∧
      0 < accelDenominator Real.cos
        (updateFrames Real.sin Real.cos Real.pi [1 / 60, 1 / 30, 5] {}).angle1
        (updateFrames Real.sin Real.cos Real.pi [1 / 60, 1 / 30, 5] {}).angle2
        (updateFrames Real.sin Real.cos Real.pi [1 / 60, 1 / 30, 5] {}).point1Mass
        (updateFrames Real.sin Real.cos Real.pi [1 / 60, 1 / 30, 5] {}).point2Mass
        (updateFrames Real.sin Real.cos Real.pi [1 / 60, 1 / 30, 5] {}).rod2Length :=
  ⟨⟨by norm_num, by norm_num, by norm_num, by norm_num⟩, ⟨rfl, rfl, rfl, rfl⟩,
    equilibrium_is_stable {} [1 / 60, 1 / 30, 5] (by norm_num) (by norm_num) (by norm_num)
      (by norm_num) (by simp) (by simp) (by simp) (by simp)⟩

/-! ## The per-frame update against the specification's `advance` -/

/-- With a lower rod of length one the loop body is the specification's sub-step of size
`deltaTime * timescale / timeSteps`. -/
theorem subStep_eq_stepSubstep_of_unit_rod2 (sin cos : α → α) (deltaTime : α)
    (p : doublePendulum α) (h : p.rod2Length = 1) :
    subStep sin cos deltaTime p =
      stepSubstep sin cos (deltaTime * timescale / (timeSteps : α)) p := by
  simp only [subStep, stepSubstep, h, accelerations_eq_closed_form_of_unit_rod2,
    mul_div_assoc, mul_assoc]

/-- With a lower rod of length one, any number of iterations of the inner loop is that
many specification sub-steps of size `deltaTime * timescale / timeSteps`. -/
theorem subStepLoop_eq_iterate_stepSubstep_of_unit_rod2 (sin cos : α → α) (deltaTime : α)
    (n : Nat) (p : doublePendulum α) (h : p.rod2Length = 1) :
    subStepLoop sin cos deltaTime n p =
      (stepSubstep sin cos (deltaTime * timescale / (timeSteps : α)))^[n] p := by
  induction n generalizing p with
  | zero => rfl
  | succ n ih =>
    have hk : (subStep sin cos deltaTime p).rod2Length = 1 :=
      (subStep_constants sin cos deltaTime p).2.2.2.1.trans h
    rw [subStepLoop, Function.iterate_succ_apply,
      ← subStep_eq_stepSubstep_of_unit_rod2 sin cos deltaTime p h]
    exact ih (subStep sin cos deltaTime p) hk

/-- With a lower rod of length one, as in every pendulum the program creates, the
per-frame update is the specification's `advance`: `timeSteps` sub-steps of size
`deltaTime * timescale / timeSteps`, the normalisation of both angles, and the position
derivation. -/
theorem updatePendulum_eq_advance_of_unit_rod2 (sin cos : α → α) (pi deltaTime : α)
    (p : doublePendulum α) (h : p.rod2Length = 1) :
    updatePendulum sin cos pi deltaTime p =
      derivePositions sin cos (advanceAngles sin cos pi deltaTime timeSteps p) := by
  unfold updatePendulum advanceAngles
  rw [subStepLoop_eq_iterate_stepSubstep_of_unit_rod2 sin cos deltaTime timeSteps p h,
    wrapAngles_eq_normalizeAngles]

/-- The position derivation establishes `positionsDerived` and leaves angles and rod
lengths as they were. -/
theorem derivePositions_spec (sin cos : α → α) (r : doublePendulum α) :
    positionsDerived sin cos (derivePositions sin cos r) ∧
      (derivePositions sin cos r).angle1 = r.angle1 ∧
      (derivePositions sin cos r).angle2 = r.angle2 ∧
      (derivePositions sin cos r).rod1Length = r.rod1Length ∧
      (derivePositions sin cos r).rod2Length = r.rod2Length :=
  ⟨⟨rfl, rfl, rfl, sub_eq_add_neg _ _⟩, rfl, rfl, rfl, rfl⟩

/-- After a per-frame update the positions agree with the angles. -/
theorem positionsDerived_updatePendulum (sin cos : α → α) (pi deltaTime : α)
    (p : doublePendulum α) :
    positionsDerived sin cos (updatePendulum sin cos pi deltaTime p) :=
  (derivePositions_spec sin cos _).1

/-- The angles after a per-frame update are the wrapped angles left by the inner loop. -/
theorem updatePendulum_angles (sin cos : α → α) (pi deltaTime : α) (p : doublePendulum α) :
    (updatePendulum sin cos pi deltaTime p).angle1 =
        wrapAngle pi (subStepLoop sin cos deltaTime timeSteps p).angle1 ∧
      (updatePendulum sin cos pi deltaTime p).angle2 =
        wrapAngle pi (subStepLoop sin cos deltaTime timeSteps p).angle2 := by
  unfold updatePendulum
  generalize subStepLoop sin cos deltaTime timeSteps p = q
  exact ⟨rfl, rfl⟩

/-- C6: after the per-frame update of any pendulum with any frame delta, `topCircle` is
`(rod1Length * sin angle1, -rod1Length * cos angle1)` and `bottomCircle` is `topCircle`
plus `(rod2Length * sin angle2, -rod2Length * cos angle2)`, with `angle1`, `angle2` the
final wrapped angles and the rod lengths unchanged; when these angles are `0` and both
lengths are `1` the positions are exactly `(0, -1)` and `(0, -2)`. -/
theorem positions_after_update (p : doublePendulum ℝ) (deltaTime : ℝ) :
    let q := updatePendulum Real.sin Real.cos Real.pi deltaTime p
    (q.topCircle.x, q.topCircle.y) =
        (q.rod1Length * Real.sin q.angle1, -q.rod1Length * Real.cos q.angle1) ∧
      (q.bottomCircle.x, q.bottomCircle.y) =
        (q.topCircle.x + q.rod2Length * Real.sin q.angle2,
          q.topCircle.y + -(q.rod2Length * Real.cos q.angle2)) ∧
      q.angle1 = wrapAngle Real.pi
        (subStepLoop Real.sin Real.cos deltaTime timeSteps p).angle1 ∧
      q.angle2 = wrapAngle Real.pi
        (subStepLoop Real.sin Real.cos deltaTime timeSteps p).angle2 ∧
      q.rod1Length = p.rod1Length ∧ q.rod2Length = p.rod2Length ∧
      (q.angle1 = 0 → q.angle2 = 0 → q.rod1Length = 1 → q.rod2Length = 1 →
        (q.topCircle.x, q.topCircle.y) = (0, -1) ∧
          (q.bottomCircle.x, q.bottomCircle.y) = (0, -2)) := by
  intro q
  obtain ⟨h1, h2, h3, h4⟩ :=
    positionsDerived_updatePendulum Real.sin Real.cos Real.pi deltaTime p
  obtain ⟨ha1, ha2⟩ := updatePendulum_angles Real.sin Real.cos Real.pi deltaTime p
  obtain ⟨_, _, hl1, hl2⟩ := updatePendulum_constants Real.sin Real.cos Real.pi deltaTime p
  refine ⟨Prod.ext h1 h2, Prod.ext h3 h4, ha1, ha2, hl1, hl2, ?_⟩
  intro e1 e2 e3 e4
  have t1 : q.topCircle.x = 0 := by rw [h1, e1, Real.sin_zero, mul_zero]
  have t2 : q.topCircle.y = -1 := by rw [h2, e1, e3, Real.cos_zero, mul_one]
  have b1 : q.bottomCircle.x = 0 := by rw [h3, t1, e2, Real.sin_zero, mul_zero, add_zero]
  have b2 : q.bottomCircle.y = -2 := by
    rw [h4, t2, e2, e4, Real.cos_zero, mul_one]
    norm_num
  exact ⟨Prod.ext t1 t2, Prod.ext b1 b2⟩

/-- Instance of `positions_after_update`: the default pendulum (angles `0`, lengths `1`)
after one frame of `1/60` seconds has its masses at `(0, -1)` and `(0, -2)`. -/
theorem positions_after_update_witness :
    (updatePendulum Real.sin Real.cos Real.pi (1 / 60) {}).angle1 = 0 ∧
      (updatePendulum Real.sin Real.cos Real.pi (1 / 60) {}).angle2 = 0 ∧
      (updatePendulum Real.sin Real.cos Real.pi (1 / 60) {}).rod1Length = 1 ∧
      (updatePendulum Real.sin Real.cos Real.pi (1 / 60) {}).rod2Length = 1 ∧
      ((updatePendulum Real.sin Real.cos Real.pi (1 / 60) {}).topCircle.x,
          (updatePendulum Real.sin Real.cos Real.pi (1 / 60) {}).topCircle.y) = (0, -1) ∧
      ((updatePendulum Real.sin Real.cos Real.pi (1 / 60) {}).bottomCircle.x,
          (updatePendulum Real.sin Real.cos Real.pi (1 / 60) {}).bottomCircle.y) = (0, -2) := by
  have hr : atRest (updatePendulum Real.sin Real.cos Real.pi (1 / 60) {}) :=
    atRest_updatePendulum (1 / 60) {} ⟨rfl, rfl, rfl, rfl⟩
  obtain ⟨_, _, hl1, hl2⟩ :=
    updatePendulum_constants Real.sin Real.cos Real.pi (1 / 60) ({} : doublePendulum ℝ)
  exact ⟨hr.1, hr.2.1, hl1, hl2,
    (positions_after_update {} (1 / 60)).2.2.2.2.2.2 hr.1 hr.2.1 hl1 hl2⟩

/-! ## Frame loop -/

/-- A frame entered with `timer ≤ 2` leaves every pendulum untouched. -/
theorem frame_gated (sin cos : α → α) (pi : α) (s : LoopState α) (e : α) (h : ¬ s.timer > 2) :
    (frame sin cos pi s e).pendulums = s.pendulums := by
  simp only [frame, if_neg h]

/-- A frame entered with `timer > 2` updates every pendulum with the stored delta. -/
theorem frame_open (sin cos : α → α) (pi : α) (s : LoopState α) (e : α) (h : s.timer > 2) :
    (frame sin cos pi s e).pendulums =
      s.pendulums.map (updatePendulum sin cos pi s.deltaTime) := by
  simp only [frame, if_pos h]

/-- After a frame entered with `timer > 2` every pendulum has derived positions. -/
theorem positionsDerived_frame_open (sin cos : α → α) (pi : α) (s : LoopState α) (e : α)
    (h : s.timer > 2) :
    ∀ p ∈ (frame sin cos pi s e).pendulums, positionsDerived sin cos p := by
  intro p hp
  rw [frame_open sin cos pi s e h, List.mem_map] at hp
  obtain ⟨r, _, rfl⟩ := hp
  exact positionsDerived_updatePendulum sin cos pi s.deltaTime r

/-- Along the frame loop the population is either still the one it started with or has
derived positions throughout. -/
theorem untouched_or_derived (sin cos : α → α) (pi : α) (l : List (doublePendulum α))
    (elapsed : List α) (s : LoopState α)
    (h : s.pendulums = l ∨ ∀ p ∈ s.pendulums, positionsDerived sin cos p) :
    (runFrames sin cos pi s elapsed).pendulums = l ∨
      ∀ p ∈ (runFrames sin cos pi s elapsed).pendulums, positionsDerived sin cos p := by
  induction elapsed generalizing s with
  | nil => exact h
  | cons e es ih =>
    have hstep : (frame sin cos pi s e).pendulums = l ∨
        ∀ p ∈ (frame sin cos pi s e).pendulums, positionsDerived sin cos p := by
      by_cases hg : s.timer > 2
      · exact Or.inr (positionsDerived_frame_open sin cos pi s e hg)
      · rw [frame_gated sin cos pi s e hg]
        exact h
    have h2 := ih (frame sin cos pi s e) hstep
    simpa only [runFrames, List.foldl_cons] using h2

/-- A freshly created pendulum has both positions at the default `(0, 0)`. -/
theorem positionsDefault_newPendulum (pi : α) (i : Nat) :
    positionsDefault (newPendulum pi i) :=
  ⟨rfl, rfl, rfl, rfl⟩

/-- The upper mass of the first created pendulum is not where its angle puts it. -/
theorem not_positionsDerived_first :
    ¬ positionsDerived Real.sin Real.cos (newPendulum Real.pi 0) := by
  intro h
  have h1 : (0 : ℝ) = 1 * Real.sin (Real.pi / 1.5 + ((0 : ℕ) : ℝ) * 0.00000000001) := h.1
  have hpi := Real.pi_pos
  have hs : 0 < Real.sin (Real.pi / 1.5 + ((0 : ℕ) : ℝ) * 0.00000000001) := by
    apply Real.sin_pos_of_pos_of_lt_pi
    · norm_num
      exact hpi
    · norm_num
      linarith
  linarith

/-- C8 (as amended): from the initial population, in any order the shuffle leaves it,
every created pendulum has both positions at the default `(0, 0)`; every state the frame
loop reaches either still holds that untouched population or has, for every pendulum,
`topCircle` and `bottomCircle` equal to the stated functions of its current angles and
lengths; and the latter holds after every frame entered with `timer > 2`. -/
theorem positions_derived_once_updated (shuffled : List (doublePendulum ℝ))
    (hperm : shuffled.Perm (createPendulums Real.pi)) (elapsed : List ℝ) :
    (∀ p ∈ shuffled, positionsDefault p) ∧
      ((runFrames Real.sin Real.cos Real.pi (initialState shuffled) elapsed).pendulums = shuffled ∨
        ∀ p ∈ (runFrames Real.sin Real.cos Real.pi (initialState shuffled) elapsed).pendulums,
          positionsDerived Real.sin Real.cos p) ∧
      (2 < (runFrames Real.sin Real.cos Real.pi (initialState shuffled) elapsed).timer →
        ∀ e, ∀ p ∈ (frame Real.sin Real.cos Real.pi
            (runFrames Real.sin Real.cos Real.pi (initialState shuffled) elapsed) e).pendulums,
          positionsDerived Real.sin Real.cos p) := by
  refine ⟨?_, ?_, ?_⟩
  · intro p hp
    have hmem : p ∈ createPendulums Real.pi := hperm.mem_iff.mp hp
    unfold createPendulums at hmem
    rw [List.mem_map] at hmem
    obtain ⟨i, _, rfl⟩ := hmem
    exact positionsDefault_newPendulum Real.pi i
  · exact untouched_or_derived Real.sin Real.cos Real.pi shuffled elapsed
      (initialState shuffled) (Or.inl rfl)
  · intro ht e
    exact positionsDerived_frame_open Real.sin Real.cos Real.pi _ e ht

/-- Instance of `positions_derived_once_updated`: the unshuffled population after three
frames of one second each, followed by a frame of `1/60` seconds. -/
theorem positions_derived_once_updated_witness :
    (createPendulums Real.pi).Perm (createPendulums Real.pi) ∧
      2 < (runFrames Real.sin Real.cos Real.pi
        (initialState (createPendulums Real.pi)) [1, 1, 1]).timer ∧
      ∀ p ∈ (frame Real.sin Real.cos Real.pi
          (runFrames Real.sin Real.cos Real.pi
            (initialState (createPendulums Real.pi)) [1, 1, 1]) (1 / 60)).pendulums,
        positionsDerived Real.sin Real.cos p := by
  have ht : 2 < (runFrames Real.sin Real.cos Real.pi
      (initialState (createPendulums Real.pi)) [1, 1, 1]).timer := by
    simp only [runFrames, List.foldl_cons, List.foldl_nil, frame, initialState]
    norm_num
  exact ⟨List.Perm.refl _, ht,
    (positions_derived_once_updated (createPendulums Real.pi) (List.Perm.refl _)
      [1, 1, 1]).2.2 ht (1 / 60)⟩

/-- C8 (as stated) fails: the first created pendulum is in the initial state and is still
there, with the timer at `2`, after two warm-up frames of one second each; its upper mass
sits at the default `(0, 0)` while its angle `π/1.5` puts it elsewhere. -/
theorem positions_not_derived_during_warm_up :
    newPendulum Real.pi 0 ∈ (initialState (createPendulums Real.pi)).pendulums ∧
      (runFrames Real.sin Real.cos Real.pi
        (initialState (createPendulums Real.pi)) [1, 1]).timer = 2 ∧
      newPendulum Real.pi 0 ∈ (runFrames Real.sin Real.cos Real.pi
        (initialState (createPendulums Real.pi)) [1, 1]).pendulums ∧
      positionsDefault (newPendulum Real.pi 0) ∧
      ¬ positionsDerived Real.sin Real.cos (newPendulum Real.pi 0) := by
  have hmem : newPendulum Real.pi 0 ∈ createPendulums Real.pi :=
    List.mem_map.mpr ⟨0, List.mem_range.mpr (by decide), rfl⟩
  have hrun : (runFrames Real.sin Real.cos Real.pi
      (initialState (createPendulums Real.pi)) [1, 1]).pendulums = createPendulums Real.pi := by
    simp only [runFrames, List.foldl_cons, List.foldl_nil, frame, initialState]
    norm_num
  refine ⟨hmem, ?_, ?_, positionsDefault_newPendulum Real.pi 0, not_positionsDerived_first⟩
  · simp only [runFrames, List.foldl_cons, List.foldl_nil, frame, initialState]
    norm_num
  · rw [hrun]
    exact hmem

end DoublePendulum
